import Mathlib

/-!
Verification of the 0-based-to-1-based indexing perturbation harness
(`programming/utils.py`).

Strings from the Python side are embedded as `List Char`.  Faults raised by
the Python code (exceptions) are embedded as an explicit `Fault` type carried
in `Except`.
-/

/-- Embedded Python exception kinds that the harness raises or catches. -/
inductive Fault where
  | zeroDivision
  | assertionError
  | indexError
  | keyError
  | typeError
  | valueError
  | attributeError
  | nameError
  | outOfFuel
deriving DecidableEq, Repr

/-! ## `remove_docstrings`: the triple-quote split / keep-even / join stage

The source does `parts = s.split(Q); parts = [p for i, p in enumerate(parts)
if i % 2 == 0]; s = "".join(parts)` where `Q` is a triple-quote delimiter
(`"""` or `'''`, a tripled quote character).  The marker replacement
(`FIX = ...`) and the trailing whitespace cleanup of `remove_docstrings` are
separate steps, outside the split stage modelled here. -/

/-- Prepend a character to the first segment of a split result
(used to build up `split` results char by char). -/
def consHead (c : Char) : List (List Char) → List (List Char)
  | [] => [[c]]
  | s :: ss => (c :: s) :: ss

/-- Python `s.split(q*3)` for a tripled one-character delimiter: segments
between non-overlapping, leftmost-first occurrences of `q, q, q`. -/
def splitTriple (q : Char) : List Char → List (List Char)
  | [] => [[]]
  | [c] => [[c]]
  | [c, d] => [[c, d]]
  | c :: r1 :: r2 :: rest2 =>
    if c = q ∧ r1 = q ∧ r2 = q then [] :: splitTriple q rest2
    else consHead c (splitTriple q (r1 :: r2 :: rest2))

/-- The comprehension `[p for i, p in enumerate(parts) if i % 2 == 0]`:
keep the even-indexed (0-based) segments. -/
def keepEven (parts : List (List Char)) : List (List Char) :=
  (parts.enum.filter (fun ip => ip.fst % 2 == 0)).map (fun ip => ip.snd)

/-- The docstring-stripping stage of `remove_docstrings` for one delimiter:
split on the tripled quote, keep even-indexed segments, join. -/
def stripDocSegments (q : Char) (s : List Char) : List Char :=
  (keepEven (splitTriple q s)).flatten

/-- What the claim text describes: remove every even-indexed (0-based)
segment of the alternating sequence, keeping the rest joined in order. -/
def removeEvenSegments (q : Char) (s : List Char) : List Char :=
  (((splitTriple q s).enum.filter (fun ip => ¬ ip.fst % 2 == 0)).map
    (fun ip => ip.snd)).flatten

/-! ## `eval_program_with_calls`: captured-output handling

After execution the code runs `assert output[-1] == "\n"` and then returns
`output[:-1].split("\n")`.  `output[-1]` on an empty string raises an
IndexError; a non-newline last character raises an AssertionError. -/

/-- Python `s[-1]`: last character, IndexError on the empty string. -/
def pyLastChar (s : List Char) : Except Fault Char :=
  match s.getLast? with
  | none => .error .indexError
  | some c => .ok c

/-- Python `s.split("\n")` (single-character separator). -/
def pySplitNl : List Char → List (List Char)
  | [] => [[]]
  | c :: rest =>
    if c = '\n' then [] :: pySplitNl rest
    else consHead c (pySplitNl rest)

/-- The output-postprocessing tail of `eval_program_with_calls`:
`assert output[-1] == "\n"; return output[:-1].split("\n")`. -/
def processCapturedOutput (output : List Char) : Except Fault (List (List Char)) :=
  match pyLastChar output with
  | .error e => .error e
  | .ok c =>
    if c = '\n' then .ok (pySplitNl output.dropLast)
    else .error .assertionError

/-! ## `extract_calls` / `sub_calls` -/

/-- The literal scanned for by `extract_calls`: `"candidate("`. -/
def candidateMark : List Char := ("candidate(").toList

/-- The inner scanning loop of `extract_calls`: walk the text from an
occurrence of the mark, toggling the in-string flag on each quote character
and tracking parenthesis depth outside strings; return the position of the
character that first brings a started balance back to depth 0, or `none`
when the text ends first (the code's post-loop assert then fails). -/
def scanFrom (started inString : Bool) (depth : Int) (i : Nat) :
    List Char → Option Nat
  | [] => none
  | c :: rest =>
    let inString2 := if c = Char.ofNat 34 ∨ c = Char.ofNat 39 then ¬ inString else inString
    if inString2 then scanFrom started inString2 depth (i + 1) rest
    else
      let started2 := if c = '(' then true else started
      let depth2 : Int := if c = '(' then depth + 1 else if c = ')' then depth - 1 else depth
      if started2 ∧ depth2 = 0 then some i
      else scanFrom started2 inString2 depth2 (i + 1) rest

/-- All start positions of `candidateMark` in `s`, in increasing order
(the code finds the first occurrence, then repeatedly searches from the
position after the previous hit). -/
def findOccs (s : List Char) : List Nat :=
  (List.range s.length).filter (fun k => candidateMark.isPrefixOf (s.drop k))

/-- Python `s[a:b]` for `0 ≤ a ≤ b` (used with in-range spans). -/
def seqSlice (s : List Char) (a b : Nat) : List Char :=
  (s.drop a).take (b - a)

/-- The per-occurrence body of the `extract_calls` loop, iterated over all
occurrence positions: scan for the balanced close paren, record the
half-open span `(idx, idx + end + 1)` and the covered substring. -/
def extractGo (s : List Char) : List Nat → Except Fault (List (Nat × Nat) × List (List Char))
  | [] => .ok ([], [])
  | idx :: rest =>
    match scanFrom false false 0 0 (s.drop idx) with
    | none => .error .assertionError
    | some e =>
      match extractGo s rest with
      | .error f => .error f
      | .ok (sps, cs) =>
        .ok ((idx, idx + e + 1) :: sps, seqSlice s idx (idx + e + 1) :: cs)

/-- `extract_calls`: assert the mark occurs at all, then extract the span and
text of every balanced call starting at each occurrence of the mark. -/
def extract_calls (s : List Char) : Except Fault (List (Nat × Nat) × List (List Char)) :=
  if (findOccs s).isEmpty then .error .assertionError
  else extractGo s (findOccs s)

/-- Python slice-bound clamping for `s[:k]` and `s[k:]` with a possibly
negative bound `k` (negative counts from the end, then clamps to range). -/
def pyClamp (n : Nat) (i : Int) : Nat :=
  if i < 0 then ((n : Int) + i).toNat else min i.toNat n

/-- `sub_calls`: walk the spans and replacement values in step (the strict
zip raises when the lengths differ), assert each value is bracketed, strip
the brackets, splice the inner text over the (offset-corrected) span and
accumulate the length delta. -/
def sub_calls (program : List Char) (delta : Int) :
    List (Nat × Nat) → List (List Char) → Except Fault (List Char)
  | [], [] => .ok program
  | (a, b) :: sps, v :: vs =>
    match v with
    | [] => .error .indexError
    | _ :: _ =>
      if v.head? = some '[' ∧ v.getLast? = some ']' then
        let v2 := (v.drop 1).dropLast
        sub_calls
          (program.take (pyClamp program.length ((a : Int) + delta)) ++ v2 ++
            program.drop (pyClamp program.length ((b : Int) + delta)))
          (delta + (v2.length : Int) - ((b : Int) - (a : Int))) sps vs
      else .error .assertionError
  | _, _ => .error .valueError

/-- Wrap a call text in square brackets, as `assemble_program_with_calls`
formats each extracted call (`[` ... `]`). -/
def wrapBrackets (c : List Char) : List Char :=
  ('[' :: c) ++ [']']

/-! ## `assemble_program_with_calls`: the perturbation-filter loop

The loop evaluates each deduplicated formatted call individually; a
`ZeroDivisionError` (the 1-based "index 0" fault") drops the call and sets
the filtered flag, any other fault propagates, a surviving call must have
printed exactly one line and is recorded with its index. -/

/-- First-seen-order deduplication of the formatted calls. -/
def dedupCalls (acc : List (List Char)) : List (List Char) → List (List Char)
  | [] => acc
  | c :: rest =>
    if c ∈ acc then dedupCalls acc rest else dedupCalls (acc ++ [c]) rest

/-- Does this evaluation result signal the index-zero fault
(`except ZeroDivisionError` in the source)? -/
def isZeroDiv {γ : Type} : Except Fault γ → Bool
  | .error .zeroDivision => true
  | _ => false

/-- The per-call filtering loop of `assemble_program_with_calls` under a
perturbation: `i` is the running index into the deduplicated call list,
`fl` the filtered flag.  Returns surviving indices, surviving calls and the
final flag, or propagates a fault. -/
def filterCallsGo {α β : Type} (evalCall : α → Except Fault (List β)) :
    Nat → Bool → List α → Except Fault (List Nat × List α × Bool)
  | _, fl, [] => .ok ([], [], fl)
  | i, fl, c :: rest =>
    match evalCall c with
    | .error .zeroDivision => filterCallsGo evalCall (i + 1) true rest
    | .error e => .error e
    | .ok out =>
      if out.length = 1 then
        match filterCallsGo evalCall (i + 1) fl rest with
        | .error e => .error e
        | .ok (idxs, cs, fl2) => .ok (i :: idxs, c :: cs, fl2)
      else .error .assertionError

/-! ## The embedded Python expression fragment

`OneBasedIndexingTransformer` works on Python AST nodes and emits new source
text; we embed the expression fragment it manipulates.  `Expr` mirrors the
AST kinds that occur in subscripts and in the emitted templates; `effect`
and `counterRead` stand for opaque effectful subexpressions (a call with
side effects, an observation of mutable state), instrumented by a counter
threaded through evaluation so evaluation counts are observable. -/

/-- Binary operator kinds used by the emitted templates (`ast.BinOp`). -/
inductive BinK where
  | add | sub | mul | div
deriving DecidableEq, Repr

/-- Comparison kinds used by the emitted templates (`ast.Compare`). -/
inductive CmpK where
  | lt | gt
deriving DecidableEq, Repr

/-- Embedded Python expressions.  The constructors map to Python AST kinds:
`intC`/`strC` to `ast.Constant`, `uminus` to `ast.UnaryOp`, `binop` to
`ast.BinOp`, `cmp` to `ast.Compare`, `ifExp` to `ast.IfExp`, `subscript` to
`ast.Subscript`, `slice` to `ast.Slice`, `isinstSeq` to the emitted
`isinstance(_, (list, tuple, str))` call, `attrPop` to the `_.pop`
attribute, `lamPopShift` to the emitted single-parameter lambda,
`call1` to a one-argument `ast.Call`, and `effect`/`counterRead` to opaque
effectful calls. -/
inductive Expr where
  | intC (n : Int)
  | strC (s : List Char)
  | name (x : String)
  | uminus (e : Expr)
  | binop (k : BinK) (a b : Expr)
  | cmp (k : CmpK) (a b : Expr)
  | ifExp (c t e : Expr)
  | subscript (c i : Expr)
  | slice (lo hi st : Option Expr)
  | isinstSeq (e : Expr)
  | attrPop (recv : Expr)
  | lamPopShift (recv : Expr)
  | call1 (f a : Expr)
  | effect (e : Expr)
  | counterRead

/-- Hashable scalar dictionary keys (the key kinds this model supports). -/
inductive PyKey where
  | int (n : Int)
  | bool (b : Bool)
  | str (s : List Char)
deriving DecidableEq, Repr

/-- Embedded Python runtime values.  `boundListPop`/`boundDictPop` are the
values of a `_.pop` attribute access on a list or dict; `closurePopShift`
is the value of the emitted lambda, capturing the receiver expression and
its defining scope. -/
inductive PyVal where
  | int (n : Int)
  | bool (b : Bool)
  | str (s : List Char)
  | list (xs : List PyVal)
  | tuple (xs : List PyVal)
  | dict (kvs : List (PyKey × PyVal))
  | boundListPop (xs : List PyVal)
  | boundDictPop (kvs : List (PyKey × PyVal))
  | closurePopShift (recv : Expr) (cenv : List (String × PyVal))

/-- Variable scopes: name-to-value bindings. -/
abbrev Env := List (String × PyVal)

/-- An evaluation outcome: a fault, or a value with the final effect
counter. -/
abbrev EvalRes := Except Fault (PyVal × Nat)

/-- Left-to-right scope lookup. -/
def lookupEnv : Env → String → Option PyVal
  | [], _ => none
  | (y, v) :: rest, x => if y = x then some v else lookupEnv rest x

/-- Python truthiness for the embedded values. -/
def pyTruthy : PyVal → Bool
  | .int n => decide (n ≠ 0)
  | .bool b => b
  | .str [] => false
  | .str (_ :: _) => true
  | .list [] => false
  | .list (_ :: _) => true
  | .tuple [] => false
  | .tuple (_ :: _) => true
  | .dict [] => false
  | .dict (_ :: _) => true
  | _ => true

/-- The runtime test `isinstance(v, (list, tuple, str))` emitted by the
rewriter. -/
def isSeqVal : PyVal → Bool
  | .list _ => true
  | .tuple _ => true
  | .str _ => true
  | _ => false

/-- Binary operators on the embedded values.  True division is modelled on
integers: the rewriter only ever emits `1/0`, whose sole observable
behavior is the ZeroDivisionError, so the value of a nonzero division is
never exercised by the claims. -/
def binEval : BinK → PyVal → PyVal → Except Fault PyVal
  | .add, .int a, .int b => .ok (.int (a + b))
  | .add, .str a, .str b => .ok (.str (a ++ b))
  | .sub, .int a, .int b => .ok (.int (a - b))
  | .mul, .int a, .int b => .ok (.int (a * b))
  | .div, .int a, .int b => if b = 0 then .error .zeroDivision else .ok (.int (a / b))
  | _, _, _ => .error .typeError

/-- Comparisons on the embedded values (int comparisons only; mixed-type
comparisons raise TypeError as in Python 3). -/
def cmpEval : CmpK → PyVal → PyVal → Except Fault PyVal
  | .lt, .int a, .int b => .ok (.bool (decide (a < b)))
  | .gt, .int a, .int b => .ok (.bool (decide (b < a)))
  | _, _, _ => .error .typeError

/-- Python index normalization for a sequence of length `n`: nonnegative
indices must be below `n`, negative indices count from the end. -/
def normIdx (n : Nat) (i : Int) : Except Fault Nat :=
  if 0 ≤ i then (if i < (n : Int) then .ok i.toNat else .error .indexError)
  else (if 0 ≤ (n : Int) + i then .ok ((n : Int) + i).toNat else .error .indexError)

/-- Element access with Python index semantics. -/
def elemAt {α : Type} (xs : List α) (i : Int) : Except Fault α :=
  match normIdx xs.length i with
  | .error er => .error er
  | .ok k =>
    match xs.get? k with
    | some v => .ok v
    | none => .error .indexError

/-- Python slice-bound adjustment (`PySlice_AdjustIndices`): translate a
negative bound, then clamp into range; the clamp targets differ for
negative steps. -/
def adjClamp (n : Nat) (negStep : Bool) (i : Int) : Int :=
  let j := if i < 0 then i + (n : Int) else i
  if j < 0 then (if negStep then -1 else 0)
  else if (n : Int) ≤ j then (if negStep then (n : Int) - 1 else (n : Int))
  else j

/-- Python extended slicing `xs[lo:hi:st]` on a sequence embedded as a list:
defaults, bound adjustment, and the stride walk. -/
def pySliceList {α : Type} (xs : List α) (lo hi st : Option Int) : Except Fault (List α) :=
  let n := xs.length
  let step := st.getD 1
  if step = 0 then .error .valueError
  else
    let neg := decide (step < 0)
    let start := match lo with
      | none => if neg then (n : Int) - 1 else 0
      | some i => adjClamp n neg i
    let stop := match hi with
      | none => if neg then -1 else (n : Int)
      | some i => adjClamp n neg i
    let cnt : Nat :=
      if neg then (if stop < start then ((start - stop - 1) / (-step) + 1).toNat else 0)
      else (if start < stop then ((stop - start - 1) / step + 1).toNat else 0)
    (List.range cnt).mapM (fun k =>
      match xs.get? (start + step * (k : Int)).toNat with
      | some v => Except.ok v
      | none => Except.error Fault.indexError)

/-- Convert a value used as a dictionary key to a scalar key
(non-scalar keys are outside this model and fault). -/
def toKey : PyVal → Except Fault PyKey
  | .int n => .ok (.int n)
  | .bool b => .ok (.bool b)
  | .str s => .ok (.str s)
  | _ => .error .typeError

/-- Dictionary lookup; a missing key raises KeyError. -/
def dictLookup : List (PyKey × PyVal) → PyKey → Except Fault PyVal
  | [], _ => .error .keyError
  | (k2, v) :: rest, k => if k2 = k then .ok v else dictLookup rest k

/-- Python `container[key]` for a non-slice key. -/
def pyGetItem : PyVal → PyVal → Except Fault PyVal
  | .list xs, .int i => elemAt xs i
  | .tuple xs, .int i => elemAt xs i
  | .str s, .int i =>
    match elemAt s i with
    | .error er => .error er
    | .ok c => .ok (.str [c])
  | .dict kvs, k =>
    match toKey k with
    | .error er => .error er
    | .ok k2 => dictLookup kvs k2
  | _, _ => .error .typeError

/-- Python `container[lo:hi:st]` with already-evaluated bounds. -/
def pyGetSlice : PyVal → Option Int → Option Int → Option Int → Except Fault PyVal
  | .list xs, lo, hi, st => (pySliceList xs lo hi st).map PyVal.list
  | .tuple xs, lo, hi, st => (pySliceList xs lo hi st).map PyVal.tuple
  | .str s, lo, hi, st => (pySliceList s lo hi st).map PyVal.str
  | _, _, _, _ => .error .typeError

/-- The value returned by `list.pop(i)`.  Removal of the element mutates the
receiver; that mutation is not observable in the expression fragment the
claims are about, so only the returned element is modelled. -/
def listPopValue (xs : List PyVal) (i : Int) : Except Fault PyVal :=
  elemAt xs i

/-- The index-shift primitive `shift_idx`: for index text `E` the rewriter
emits `(E)-(1 if (E) > 0 else (0 if (E) < 0 else (1/0)))`. -/
def shift_idx (e : Expr) : Expr :=
  .binop .sub e
    (.ifExp (.cmp .gt e (.intC 0)) (.intC 1)
      (.ifExp (.cmp .lt e (.intC 0)) (.intC 0) (.binop .div (.intC 1) (.intC 0))))

/-- `expand_idx`: a slice shifts each present bound independently and passes
the step through unchanged; any other index gets the scalar shift. -/
def expand_idx : Expr → Expr
  | .slice lo hi st =>
    .slice (match lo with | some l => some (shift_idx l) | none => none)
           (match hi with | some u => some (shift_idx u) | none => none) st
  | e => shift_idx e

/-- Membership in `types_we_know_how_to_handle`: `ast.Constant`,
`ast.UnaryOp`, `ast.BinOp`, `ast.Name`, `ast.Subscript`, `ast.IfExp`,
`ast.Slice`.  `ast.Compare`, `ast.Call`, `ast.Attribute`, `ast.Lambda` and
the opaque effectful calls are not in the tuple. -/
def inHandledTypes : Expr → Bool
  | .intC _ => true
  | .strC _ => true
  | .uminus _ => true
  | .binop _ _ _ => true
  | .name _ => true
  | .subscript _ _ => true
  | .ifExp _ _ _ => true
  | .slice _ _ _ => true
  | _ => false

/-- The subscript-read template emitted by `visit_Subscript`:
`(c)[expand_idx(i)] if isinstance((c), (list, tuple, str)) else (c[i])`. -/
def rewriteSubscriptRead (c i : Expr) : Expr :=
  .ifExp (.isinstSeq c) (.subscript c (expand_idx i)) (.subscript c i)

/-- `visit_Subscript`: assert the index kind is certified, then emit the
runtime-dispatched template. -/
def visit_Subscript (c i : Expr) : Except Fault Expr :=
  if inHandledTypes i then .ok (rewriteSubscriptRead c i) else .error .assertionError

/-- The parameter name of the emitted lambda ("a name that would never
collide"). -/
def antwncName : String := "__antwnc"

/-- The rewrite of a one-argument `recv.pop(arg)` call emitted by
`visit_Attribute`: the attribute node becomes
`(lambda __antwnc: (recv.pop)(shift_idx(__antwnc))) if
isinstance((recv), (list, tuple, str)) else (recv.pop)`, and the parent
call applies it to the original argument. -/
def rewritePopCall (recv arg : Expr) : Expr :=
  .call1 (.ifExp (.isinstSeq recv) (.lamPopShift recv) (.attrPop recv)) arg

/-- Fuel-indexed evaluator for the embedded fragment.  Fuel is consumed at
every node; `outOfFuel` never corresponds to a Python behavior and no claim
mentions it.  The second `Nat` is the effect counter. -/
def eval : Nat → Env → Expr → Nat → EvalRes
  | 0, _, _, _ => .error .outOfFuel
  | _ + 1, _, .intC n, σ => .ok (.int n, σ)
  | _ + 1, _, .strC s, σ => .ok (.str s, σ)
  | _ + 1, env, .name x, σ =>
    match lookupEnv env x with
    | none => .error .nameError
    | some v => .ok (v, σ)
  | fuel + 1, env, .uminus e, σ =>
    match eval fuel env e σ with
    | .error er => .error er
    | .ok (.int n, σ1) => .ok (.int (-n), σ1)
    | .ok _ => .error .typeError
  | fuel + 1, env, .binop k a b, σ =>
    match eval fuel env a σ with
    | .error er => .error er
    | .ok (va, σ1) =>
      match eval fuel env b σ1 with
      | .error er => .error er
      | .ok (vb, σ2) =>
        match binEval k va vb with
        | .error er => .error er
        | .ok v => .ok (v, σ2)
  | fuel + 1, env, .cmp k a b, σ =>
    match eval fuel env a σ with
    | .error er => .error er
    | .ok (va, σ1) =>
      match eval fuel env b σ1 with
      | .error er => .error er
      | .ok (vb, σ2) =>
        match cmpEval k va vb with
        | .error er => .error er
        | .ok v => .ok (v, σ2)
  | fuel + 1, env, .ifExp c t e, σ =>
    match eval fuel env c σ with
    | .error er => .error er
    | .ok (vc, σ1) => if pyTruthy vc then eval fuel env t σ1 else eval fuel env e σ1
  | fuel + 1, env, .subscript c i, σ =>
    match eval fuel env c σ with
    | .error er => .error er
    | .ok (vc, σ1) =>
      match i with
      | .slice lo hi st =>
        match (match lo with
               | none => (.ok (none, σ1) : Except Fault (Option Int × Nat))
               | some le =>
                 match eval fuel env le σ1 with
                 | .error er => .error er
                 | .ok (.int n, σ2) => .ok (some n, σ2)
                 | .ok _ => .error .typeError) with
        | .error er => .error er
        | .ok (lov, σ2) =>
          match (match hi with
                 | none => (.ok (none, σ2) : Except Fault (Option Int × Nat))
                 | some ue =>
                   match eval fuel env ue σ2 with
                   | .error er => .error er
                   | .ok (.int n, σ3) => .ok (some n, σ3)
                   | .ok _ => .error .typeError) with
          | .error er => .error er
          | .ok (hiv, σ3) =>
            match (match st with
                   | none => (.ok (none, σ3) : Except Fault (Option Int × Nat))
                   | some se =>
                     match eval fuel env se σ3 with
                     | .error er => .error er
                     | .ok (.int n, σ4) => .ok (some n, σ4)
                     | .ok _ => .error .typeError) with
            | .error er => .error er
            | .ok (stv, σ4) =>
              match pyGetSlice vc lov hiv stv with
              | .error er => .error er
              | .ok v => .ok (v, σ4)
      | _ =>
        match eval fuel env i σ1 with
        | .error er => .error er
        | .ok (vi, σ2) =>
          match pyGetItem vc vi with
          | .error er => .error er
          | .ok v => .ok (v, σ2)
  | _ + 1, _, .slice _ _ _, _ => .error .typeError
  | fuel + 1, env, .isinstSeq e, σ =>
    match eval fuel env e σ with
    | .error er => .error er
    | .ok (v, σ1) => .ok (.bool (isSeqVal v), σ1)
  | fuel + 1, env, .attrPop recv, σ =>
    match eval fuel env recv σ with
    | .error er => .error er
    | .ok (.list xs, σ1) => .ok (.boundListPop xs, σ1)
    | .ok (.dict kvs, σ1) => .ok (.boundDictPop kvs, σ1)
    | .ok _ => .error .attributeError
  | _ + 1, env, .lamPopShift recv, σ => .ok (.closurePopShift recv env, σ)
  | fuel + 1, env, .call1 f a, σ =>
    match eval fuel env f σ with
    | .error er => .error er
    | .ok (vf, σ1) =>
      match eval fuel env a σ1 with
      | .error er => .error er
      | .ok (va, σ2) =>
        match vf with
        | .boundListPop xs =>
          match va with
          | .int n =>
            match listPopValue xs n with
            | .error er => .error er
            | .ok v => .ok (v, σ2)
          | _ => .error .typeError
        | .boundDictPop kvs =>
          match toKey va with
          | .error er => .error er
          | .ok k =>
            match dictLookup kvs k with
            | .error er => .error er
            | .ok v => .ok (v, σ2)
        | .closurePopShift recvE cenv =>
          eval fuel ((antwncName, va) :: cenv) (.call1 (.attrPop recvE) (shift_idx (.name antwncName))) σ2
        | _ => .error .typeError
  | fuel + 1, env, .effect e, σ => eval fuel env e (σ + 1)
  | _ + 1, _, .counterRead, σ => .ok (.int σ, σ)

/-- The integer payload of an evaluation outcome, when there is one. -/
def resInt : EvalRes → Option Int
  | .ok (.int n, _) => some n
  | _ => none

/-- The final effect counter of a successful evaluation. -/
def resCnt : EvalRes → Option Nat
  | .ok (_, σ) => some σ
  | _ => none

/-- Does the tripled delimiter `q q q` occur at position `k` of `s`? -/
def tripleAt (q : Char) (s : List Char) (k : Nat) : Bool :=
  [q, q, q].isPrefixOf (s.drop k)

/-- A concrete scope binding `xs` to the list `[10, 20, 30]`, used by the
concrete evaluation theorems. -/
def envSeq : Env := [("xs", PyVal.list [.int 10, .int 20, .int 30])]

/-- A concrete scope binding `m` to the mapping `{1: 8, 0: 7}`. -/
def envMap : Env := [("m", PyVal.dict [(PyKey.int 1, PyVal.int 8), (PyKey.int 0, PyVal.int 7)])]

/-- A concrete call evaluator used by the C5 witness: call 0 prints one
line, call 1 raises the index-zero fault, call 2 prints one line, any other
call raises a type fault. -/
def evalCallDemo : Nat → Except Fault (List Nat)
  | 0 => .ok [5]
  | 1 => .error .zeroDivision
  | 2 => .ok [7]
  | _ => .error .typeError

/-! ## Helper lemmas -/

/-- Symbolic evaluation of the emitted shift template: when the index
expression purely evaluates to the integer `v`, the template subtracts one
for positive `v`, is the identity for negative `v`, and raises the
division fault at zero. -/
theorem shift_idx_eval (env : Env) (E : Expr) (σ N : Nat) (v : Int)
    (h : ∀ f, N ≤ f → eval f env E σ = .ok (.int v, σ)) :
    ∀ f, N ≤ f → eval (f + 4) env (shift_idx E) σ =
      (if 0 < v then .ok (.int (v - 1), σ)
       else if v < 0 then .ok (.int v, σ) else .error .zeroDivision) := by
  intro f hf
  match f with
  | 0 =>
    have h0 := h 0 hf
    simp [eval] at h0
  | f2 + 1 =>
    have h3 := h (f2 + 4) (by omega)
    have h1 := h (f2 + 2) (by omega)
    have h0 := h (f2 + 1) (by omega)
    show eval (f2 + 5) env (shift_idx E) σ = _
    simp only [shift_idx, eval, h3, h1, h0, cmpEval, pyTruthy, binEval]
    rcases lt_trichotomy v 0 with hv | hv | hv
    · simp [hv, not_lt.mpr (le_of_lt hv)]
    · simp [hv]
    · simp [hv, not_lt.mpr (le_of_lt hv)]

/-- Claim C1: for every index expression `E` rewritten by the index-shift
primitive `shift_idx`: if `E` evaluates to a strictly positive `v` the
shifted expression evaluates to `v - 1`; if `E` evaluates to a strictly
negative value the shifted expression evaluates to the same value; and if
`E` evaluates to zero the shifted expression raises the
division-by-zero-shaped fault. -/
theorem claimC1_shift_idx_semantics (env : Env) (E : Expr) (σ N : Nat) (v : Int)
    (h : ∀ f, N ≤ f → eval f env E σ = .ok (.int v, σ)) :
    (0 < v → ∀ f, N ≤ f → eval (f + 4) env (shift_idx E) σ = .ok (.int (v - 1), σ)) ∧
    (v < 0 → ∀ f, N ≤ f → eval (f + 4) env (shift_idx E) σ = .ok (.int v, σ)) ∧
    (v = 0 → ∀ f, N ≤ f → eval (f + 4) env (shift_idx E) σ = .error .zeroDivision) := by
  refine ⟨fun hv f hf => ?_, fun hv f hf => ?_, fun hv f hf => ?_⟩
  · rw [shift_idx_eval env E σ N v h f hf]; simp [hv]
  · rw [shift_idx_eval env E σ N v h f hf]; simp [hv, not_lt.mpr (le_of_lt hv)]
  · rw [shift_idx_eval env E σ N v h f hf]; simp [hv]

/-- Witness for C1 at the concrete indices 3, -2 and 0. -/
theorem claimC1_shift_idx_semantics_witness :
    eval 5 [] (shift_idx (.intC 3)) 0 = .ok (.int 2, 0) ∧
    eval 5 [] (shift_idx (.intC (-2))) 0 = .ok (.int (-2), 0) ∧
    eval 5 [] (shift_idx (.intC 0)) 0 = .error .zeroDivision := by
  have hp : ∀ v : Int, ∀ f : Nat, 1 ≤ f → eval f [] (.intC v) 0 = .ok (.int v, 0) := by
    intro v f hf
    match f, hf with
    | g + 1, _ => rfl
  refine ⟨?_, ?_, ?_⟩
  · exact (claimC1_shift_idx_semantics [] (.intC 3) 0 1 3 (hp 3)).1 (by decide) 1 (le_refl 1)
  · exact (claimC1_shift_idx_semantics [] (.intC (-2)) 0 1 (-2) (hp (-2))).2.1 (by decide) 1 (le_refl 1)
  · exact (claimC1_shift_idx_semantics [] (.intC 0) 0 1 0 (hp 0)).2.2 rfl 1 (le_refl 1)

/-- Claim C4: `visit_Subscript` asserts that the index expression kind is in
`types_we_know_how_to_handle`; any other kind raises the assertion-style
fault to the caller instead of being passed through or rewritten. -/
theorem claimC4_unhandled_index_faults (c i : Expr) (h : inHandledTypes i = false) :
    visit_Subscript c i = .error .assertionError := by
  simp [visit_Subscript, h]

/-- Witness for C4 at a one-argument call node (`ast.Call`) as index. -/
theorem claimC4_unhandled_index_faults_witness :
    inHandledTypes (.call1 (.name "f") (.intC 1)) = false ∧
    visit_Subscript (.name "m") (.call1 (.name "f") (.intC 1)) = .error .assertionError :=
  ⟨rfl, claimC4_unhandled_index_faults (.name "m") (.call1 (.name "f") (.intC 1)) rfl⟩

/-- Claim C10: in the rewritten subscript read the container is evaluated
twice (versus once originally); the index is evaluated twice on the
positive path and three times on the negative path (versus once
originally); and with an effectful index the rewritten read disagrees with
the original read, so the rewrite is behavior-preserving only for
effect-free container and index expressions. -/
theorem claimC10_repeated_evaluation :
    resCnt (eval 20 envSeq (rewriteSubscriptRead (.effect (.name "xs")) (.intC 1)) 0) = some 2 ∧
    resCnt (eval 20 envSeq (.subscript (.effect (.name "xs")) (.intC 1)) 0) = some 1 ∧
    resCnt (eval 20 envSeq (rewriteSubscriptRead (.name "xs") (.effect (.intC 2))) 0) = some 2 ∧
    resCnt (eval 20 envSeq (rewriteSubscriptRead (.name "xs") (.effect (.intC (-1)))) 0) = some 3 ∧
    resCnt (eval 20 envSeq (.subscript (.name "xs") (.effect (.intC 2))) 0) = some 1 ∧
    resInt (eval 20 envSeq (rewriteSubscriptRead (.name "xs") (.effect .counterRead)) 0) = some 10 ∧
    resInt (eval 20 envSeq (.subscript (.name "xs") (.effect .counterRead)) 0) = some 20 :=
  ⟨rfl, rfl, rfl, rfl, rfl, rfl, rfl⟩

/-- Claim C2: the rewritten subscript read dispatches on the container's
runtime value: an ordered sequence (list, tuple, string) gets the shifted
index or slice, every other value (in particular a mapping) gets the
original unshifted subscript, so rewritten `m[k]` equals original `m[k]`. -/
theorem claimC2_subscript_dispatch (env : Env) (c i : Expr) (v : PyVal) (σ N : Nat) (rw0 : Expr)
    (hok : visit_Subscript c i = .ok rw0)
    (hc : ∀ f, N ≤ f → eval f env c σ = .ok (v, σ)) :
    (isSeqVal v = true → ∀ f, N ≤ f →
      eval (f + 2) env rw0 σ = eval (f + 1) env (.subscript c (expand_idx i)) σ) ∧
    (isSeqVal v = false → ∀ f, N ≤ f →
      eval (f + 2) env rw0 σ = eval (f + 1) env (.subscript c i) σ) := by
  have hrw : rw0 = rewriteSubscriptRead c i := by
    by_cases hh : inHandledTypes i
    · simp [visit_Subscript, hh] at hok
      exact hok.symm
    · simp [visit_Subscript, hh] at hok
  subst hrw
  constructor <;> intro hv f hf
  · match f with
    | 0 =>
      have h0 := hc 0 hf
      simp [eval] at h0
    | f2 + 1 =>
      show eval (f2 + 3) env _ σ = eval (f2 + 2) env _ σ
      simp only [rewriteSubscriptRead, eval, hc (f2 + 1) (by omega), pyTruthy, hv]
      simp
  · match f with
    | 0 =>
      have h0 := hc 0 hf
      simp [eval] at h0
    | f2 + 1 =>
      show eval (f2 + 3) env _ σ = eval (f2 + 2) env _ σ
      simp only [rewriteSubscriptRead, eval, hc (f2 + 1) (by omega), pyTruthy, hv]
      simp

/-- Witness for C2: the mapping `m = {1: 8, 0: 7}` reads `m[1]` unshifted
through the rewritten expression. -/
theorem claimC2_subscript_dispatch_witness :
    eval 3 envMap (rewriteSubscriptRead (.name "m") (.intC 1)) 0 =
      eval 2 envMap (.subscript (.name "m") (.intC 1)) 0 ∧
    eval 2 envMap (.subscript (.name "m") (.intC 1)) 0 = .ok (.int 8, 0) := by
  constructor
  · refine (claimC2_subscript_dispatch envMap (.name "m") (.intC 1)
      (.dict [(PyKey.int 1, PyVal.int 8), (PyKey.int 0, PyVal.int 7)]) 0 1
      (rewriteSubscriptRead (.name "m") (.intC 1)) rfl ?_).2 rfl 1 (le_refl 1)
    intro f hf
    match f, hf with
    | g + 1, _ => rfl
  · rfl

/-- Claim C3: on a sequence container, the rewritten slice read with
positive bounds `a`, `b` evaluates exactly as the original `s[a-1 : b-1]`;
and `expand_idx` shifts each present bound independently, leaves an absent
bound absent, and never shifts the step. -/
theorem claimC3_slice_shift (env : Env) (s ea eb : Expr) (v : PyVal) (a b : Int) (σ N : Nat)
    (hs : ∀ f, N ≤ f → eval f env s σ = .ok (v, σ))
    (hseq : isSeqVal v = true)
    (ha : ∀ f, N ≤ f → eval f env ea σ = .ok (.int a, σ))
    (hb : ∀ f, N ≤ f → eval f env eb σ = .ok (.int b, σ))
    (hpa : 0 < a) (hpb : 0 < b) :
    (∀ f, N ≤ f → eval (f + 6) env (rewriteSubscriptRead s (.slice (some ea) (some eb) none)) σ
        = (pyGetSlice v (some (a - 1)) (some (b - 1)) none).map (fun w => (w, σ))) ∧
    (∀ f, N ≤ f →
      eval (f + 2) env (.subscript s (.slice (some (.intC (a - 1))) (some (.intC (b - 1))) none)) σ
        = (pyGetSlice v (some (a - 1)) (some (b - 1)) none).map (fun w => (w, σ))) ∧
    (∀ lo hi st, expand_idx (.slice lo hi st) =
        .slice (lo.map shift_idx) (hi.map shift_idx) st) := by
  refine ⟨fun f hf => ?_, fun f hf => ?_, fun lo hi st => ?_⟩
  · match f with
    | 0 =>
      have h0 := hs 0 hf
      simp [eval] at h0
    | f2 + 1 =>
      show eval (f2 + 7) env _ σ = _
      simp only [rewriteSubscriptRead, expand_idx, eval, hs (f2 + 5) (by omega),
        ha (f2 + 4) (by omega), ha (f2 + 2) (by omega), ha (f2 + 1) (by omega),
        hb (f2 + 4) (by omega), hb (f2 + 2) (by omega), hb (f2 + 1) (by omega),
        cmpEval, binEval, pyTruthy, hseq, hpa, hpb]
      simp only [decide_eq_true_eq, if_true, decide_True, eval,
        ha (f2 + 4) (by omega), ha (f2 + 2) (by omega), ha (f2 + 1) (by omega),
        hb (f2 + 4) (by omega), hb (f2 + 2) (by omega), hb (f2 + 1) (by omega),
        cmpEval, binEval, pyTruthy, hpa, hpb]
      cases hres : pyGetSlice v (some (a - 1)) (some (b - 1)) none <;> simp [hres, Except.map]
  · match f with
    | 0 =>
      have h0 := hs 0 hf
      simp [eval] at h0
    | f2 + 1 =>
      show eval (f2 + 3) env _ σ = _
      simp only [eval, hs (f2 + 2) (by omega)]
      cases hres : pyGetSlice v (some (a - 1)) (some (b - 1)) none <;> simp [hres, Except.map]
  · cases lo <;> cases hi <;> rfl

/-- Witness for C3: `[10, 20, 30][1:3]` rewritten on 1-based semantics
evaluates as the original `[10, 20, 30][0:2]`, i.e. `[10, 20]`. -/
theorem claimC3_slice_shift_witness :
    eval 7 envSeq (rewriteSubscriptRead (.name "xs") (.slice (some (.intC 1)) (some (.intC 3)) none)) 0
        = .ok (.list [.int 10, .int 20], 0) ∧
    eval 3 envSeq (.subscript (.name "xs") (.slice (some (.intC 0)) (some (.intC 2)) none)) 0
        = .ok (.list [.int 10, .int 20], 0) := by
  have hname : ∀ f : Nat, 1 ≤ f → eval f envSeq (.name "xs") 0 =
      .ok (.list [.int 10, .int 20, .int 30], 0) := by
    intro f hf
    match f, hf with
    | g + 1, _ => rfl
  have hone : ∀ f : Nat, 1 ≤ f → eval f envSeq (.intC 1) 0 = .ok (.int 1, 0) := by
    intro f hf
    match f, hf with
    | g + 1, _ => rfl
  have hthree : ∀ f : Nat, 1 ≤ f → eval f envSeq (.intC 3) 0 = .ok (.int 3, 0) := by
    intro f hf
    match f, hf with
    | g + 1, _ => rfl
  constructor
  · have h := (claimC3_slice_shift envSeq (.name "xs") (.intC 1) (.intC 3)
      (.list [.int 10, .int 20, .int 30]) 1 3 0 1 hname rfl hone hthree
      (by decide) (by decide)).1 1 (le_refl 1)
    exact h.trans rfl
  · rfl

/-- Shifting the probe position past a leading character. -/
theorem tripleAt_cons (q c : Char) (s : List Char) (k : Nat) :
    tripleAt q (c :: s) (k + 1) = tripleAt q s k := rfl

/-- When the tripled delimiter does not start the text, `splitTriple` keeps
the head character in the first segment. -/
theorem splitTriple_cons (q c : Char) (rest : List Char)
    (h : tripleAt q (c :: rest) 0 = false) :
    splitTriple q (c :: rest) = consHead c (splitTriple q rest) := by
  match rest with
  | [] => rfl
  | [d] => rfl
  | r1 :: r2 :: rest2 =>
    have hc : ¬ (c = q ∧ r1 = q ∧ r2 = q) := by
      intro hcon
      obtain ⟨hc1, hc2, hc3⟩ := hcon
      subst hc1; subst hc2; subst hc3
      simp [tripleAt, List.isPrefixOf] at h
    simp [splitTriple, hc]

/-- The delimiter-skipping equation for `splitTriple`: up to the first
delimiter occurrence the text forms one segment. -/
theorem splitTriple_skip (q : Char) : ∀ (a t : List Char),
    (∀ k, k < a.length → tripleAt q (a ++ q :: q :: q :: t) k = false) →
    splitTriple q (a ++ q :: q :: q :: t) = a :: splitTriple q t := by
  intro a
  induction a with
  | nil =>
    intro t _
    simp [splitTriple]
  | cons c a2 ih =>
    intro t h
    have h0 : tripleAt q (c :: (a2 ++ q :: q :: q :: t)) 0 = false := by
      have := h 0 (by simp)
      rwa [List.cons_append] at this
    rw [List.cons_append, splitTriple_cons q c _ h0, ih t ?_]
    · rfl
    · intro k hk
      have := h (k + 1) (by simp only [List.length_cons]; omega)
      rwa [List.cons_append, tripleAt_cons] at this

/-- Text free of the tripled delimiter is a single segment. -/
theorem splitTriple_none (q : Char) : ∀ (b : List Char),
    (∀ k, k < b.length → tripleAt q b k = false) →
    splitTriple q b = [b] := by
  intro b
  induction b with
  | nil => intro _; rfl
  | cons c rest ih =>
    intro h
    rw [splitTriple_cons q c rest (h 0 (by simp)), ih ?_]
    · rfl
    · intro k hk
      have := h (k + 1) (by simp only [List.length_cons]; omega)
      rwa [tripleAt_cons] at this

/-- Counterexample for C9: on `a"""doc"""b` the docstring-stripping stage
keeps the even-indexed segments (`ab`), while removing the even-indexed
segments as the claim states would instead leave `doc`. -/
theorem claimC9_counterexample :
    stripDocSegments (Char.ofNat 34) (("a\"\"\"doc\"\"\"b").toList) ≠
      removeEvenSegments (Char.ofNat 34) (("a\"\"\"doc\"\"\"b").toList) := by
  decide

/-- Claim C9 (amended): the docstring-stripping stage splits at matched
tripled delimiters and keeps the even-indexed (0-based) segments — removing
the odd-indexed docstring segments — concatenated in order: with a single
docstring `m` between code `a` and `b`, the result is `a ++ b`. -/
theorem claimC9_strips_odd_segments (q : Char) (a m b : List Char)
    (h1 : ∀ k, k < a.length → tripleAt q (a ++ q :: q :: q :: (m ++ q :: q :: q :: b)) k = false)
    (h2 : ∀ k, k < m.length → tripleAt q (m ++ q :: q :: q :: b) k = false)
    (h3 : ∀ k, k < b.length → tripleAt q b k = false) :
    stripDocSegments q (a ++ q :: q :: q :: (m ++ q :: q :: q :: b)) = a ++ b := by
  have hsplit : splitTriple q (a ++ q :: q :: q :: (m ++ q :: q :: q :: b)) = [a, m, b] := by
    rw [splitTriple_skip q a _ h1, splitTriple_skip q m b h2, splitTriple_none q b h3]
  rw [stripDocSegments, hsplit]
  have hke : keepEven [a, m, b] = [a, b] := by
    simp [keepEven, List.enum, List.enumFrom, List.filter]
  rw [hke]
  simp

/-- Witness for the amended C9 on concrete code and docstring texts. -/
theorem claimC9_strips_odd_segments_witness :
    stripDocSegments (Char.ofNat 34)
      (("x=1").toList ++ Char.ofNat 34 :: Char.ofNat 34 :: Char.ofNat 34 ::
        (("doc").toList ++ Char.ofNat 34 :: Char.ofNat 34 :: Char.ofNat 34 :: ("y=2").toList))
      = ("x=1").toList ++ ("y=2").toList :=
  claimC9_strips_odd_segments (Char.ofNat 34) (("x=1").toList) (("doc").toList) (("y=2").toList)
    (by decide) (by decide) (by decide)

/-- A split result is never the empty list of segments. -/
theorem pySplitNl_ne_nil (s : List Char) : pySplitNl s ≠ [] := by
  induction s with
  | nil => simp [pySplitNl]
  | cons c rest ih =>
    simp only [pySplitNl]
    split
    · simp
    · cases h : pySplitNl rest with
      | nil => exact absurd h ih
      | cons x xs => simp [consHead]

/-- `consHead` commutes with appending a final segment. -/
theorem consHead_append_singleton (c : Char) (l : List (List Char)) (x : List Char)
    (h : l ≠ []) : consHead c (l ++ [x]) = consHead c l ++ [x] := by
  cases l with
  | nil => exact absurd rfl h
  | cons s ss => rfl

/-- Splitting text with a trailing newline appends one final empty
segment. -/
theorem pySplitNl_concat_nl (s : List Char) :
    pySplitNl (s ++ ['\n']) = pySplitNl s ++ [[]] := by
  induction s with
  | nil => rfl
  | cons c rest ih =>
    simp only [List.cons_append, List.append_eq, pySplitNl]
    split
    · rw [ih]
      rfl
    · rw [ih, consHead_append_singleton c _ _ (pySplitNl_ne_nil rest)]

/-- Claim C7: if the captured output does not end with a line terminator the
evaluator raises a fault instead of returning; otherwise it returns the
output split on line terminators with the final empty segment removed. -/
theorem claimC7_trailing_newline (output : List Char) :
    (output.getLast? ≠ some '\n' → ∃ er, processCapturedOutput output = .error er) ∧
    (output.getLast? = some '\n' →
      processCapturedOutput output = .ok ((pySplitNl output).dropLast)) := by
  constructor
  · intro h
    match houtput : output.getLast? with
    | none => exact ⟨.indexError, by simp [processCapturedOutput, pyLastChar, houtput]⟩
    | some c =>
      have hc : ¬ (c = '\n') := fun he => h (by rw [houtput, he])
      exact ⟨.assertionError, by simp [processCapturedOutput, pyLastChar, houtput, hc]⟩
  · intro h
    have hne : output ≠ [] := by
      intro he
      rw [he] at h
      simp at h
    have hl : output.getLast hne = '\n' := by
      have hh := List.getLast?_eq_getLast output hne
      rw [hh] at h
      exact Option.some_injective _ h
    have hform : output = output.dropLast ++ ['\n'] := by
      conv_lhs => rw [← List.dropLast_append_getLast hne, hl]
    rw [hform, pySplitNl_concat_nl]
    simp [processCapturedOutput, pyLastChar, List.getLast?_concat, List.dropLast_concat]

/-- Witness for C7: `"ab\nc\n"` splits into `ab`, `c`; `"x"` faults. -/
theorem claimC7_trailing_newline_witness :
    processCapturedOutput (("ab\nc\n").toList) = .ok [("ab").toList, ("c").toList] ∧
    (∃ er, processCapturedOutput (("x").toList) = .error er) := by
  constructor
  · have h := (claimC7_trailing_newline (("ab\nc\n").toList)).2 (by decide)
    exact h.trans (by rfl)
  · exact (claimC7_trailing_newline (("x").toList)).1 (by decide)

/-- Counterexample for C6: instrumenting the receiver with an effect counter
shows the rewritten `xs.pop(2)` fires the receiver's effect twice (the type
test and the selected branch each evaluate it), while the original call
fires it exactly once — so the receiver is not evaluated exactly once. -/
theorem claimC6_counterexample :
    resCnt (eval 20 envSeq (rewritePopCall (.effect (.name "xs")) (.intC 2)) 0) = some 2 ∧
    resCnt (eval 20 envSeq (.call1 (.attrPop (.effect (.name "xs"))) (.intC 2)) 0) = some 1 ∧
    resCnt (eval 20 envSeq (rewritePopCall (.effect (.name "xs")) (.intC 2)) 0) ≠
      resCnt (eval 20 envSeq (.call1 (.attrPop (.effect (.name "xs"))) (.intC 2)) 0) :=
  ⟨rfl, rfl, by decide⟩

/-- Claim C6 (amended): in the rewritten one-argument `recv.pop(i)` the
receiver is evaluated exactly twice — once by the runtime type test and
once by the selected branch — and the index argument exactly once (the
final counter is the initial one plus three); the index is shifted exactly
when the type test saw a list, while a dict receiver gets the original
unshifted call. -/
theorem claimC6_pop_dispatch (fuel : Nat) (env : Env) (σ : Nat) (x : String) (i : Int)
    (hne : ¬ (x = antwncName)) :
    (∀ xs, lookupEnv env x = some (.list xs) →
      eval (fuel + 8) env (rewritePopCall (.effect (.name x)) (.effect (.intC i))) σ =
        ((if 0 < i then listPopValue xs (i - 1)
          else if i < 0 then listPopValue xs i
          else .error .zeroDivision).map (fun w => (w, σ + 3)))) ∧
    (∀ kvs, lookupEnv env x = some (.dict kvs) →
      eval (fuel + 8) env (rewritePopCall (.effect (.name x)) (.effect (.intC i))) σ =
        ((dictLookup kvs (.int i)).map (fun w => (w, σ + 3)))) := by
  have hne2 : ¬ (antwncName = x) := fun h => hne h.symm
  constructor
  · intro xs hx
    repeat simp only [rewritePopCall, shift_idx, eval, lookupEnv, hx, hne2, if_false, if_true,
      pyTruthy, isSeqVal, cmpEval, binEval, listPopValue]
    rcases lt_trichotomy i 0 with hv | hv | hv
    · simp [hv, not_lt.mpr (le_of_lt hv), Except.map]
      cases hres : elemAt xs i <;> simp [hres]
    · simp [hv, Except.map]
    · simp [hv, not_lt.mpr (le_of_lt hv), Except.map]
      cases hres : elemAt xs (i - 1) <;> simp [hres]
  · intro kvs hx
    repeat simp only [rewritePopCall, eval, lookupEnv, hx, hne2, if_false, if_true,
      pyTruthy, isSeqVal, toKey]
    cases hres : dictLookup kvs (.int i) <;> simp [hres, Except.map]

/-- Witness for the amended C6: `xs.pop(2)` on `[10, 20, 30]` returns the
1-based second element 20, with the counter at 3 (receiver twice, index
once). -/
theorem claimC6_pop_dispatch_witness :
    eval 8 envSeq (rewritePopCall (.effect (.name "xs")) (.effect (.intC 2))) 0 =
      .ok (.int 20, 3) := by
  have h := (claimC6_pop_dispatch 0 envSeq 0 "xs" 2 (by decide)).1
    [.int 10, .int 20, .int 30] rfl
  exact h.trans (by rfl)

/-- Claim C5: the per-call perturbation filter evaluates each call of the
deduplicated list individually; every call raising the index-zero fault is
dropped (setting the filtered flag), every surviving call keeps its index
into the deduplicated list, and any other fault propagates to the caller
unmodified. -/
theorem claimC5_perturbation_filter (γ δ : Type) (evalCall : γ → Except Fault (List δ)) :
    (∀ (calls : List γ) (i : Nat) (fl : Bool),
      (∀ c ∈ calls, evalCall c = .error .zeroDivision ∨ ∃ x, evalCall c = .ok [x]) →
      filterCallsGo evalCall i fl calls =
        .ok (((List.enumFrom i calls).filter (fun p => !isZeroDiv (evalCall p.2))).map Prod.fst,
             ((List.enumFrom i calls).filter (fun p => !isZeroDiv (evalCall p.2))).map Prod.snd,
             (fl || calls.any (fun c => isZeroDiv (evalCall c))))) ∧
    (∀ (pre post : List γ) (c : γ) (i : Nat) (fl : Bool) (er : Fault),
      (∀ c2 ∈ pre, evalCall c2 = .error .zeroDivision ∨ ∃ x, evalCall c2 = .ok [x]) →
      evalCall c = .error er → ¬ (er = .zeroDivision) →
      filterCallsGo evalCall i fl (pre ++ c :: post) = .error er) := by
  constructor
  · intro calls
    induction calls with
    | nil => intro i fl h; simp [filterCallsGo, List.enumFrom]
    | cons c rest ih =>
      intro i fl h
      have hrest : ∀ c2 ∈ rest, evalCall c2 = .error .zeroDivision ∨ ∃ x, evalCall c2 = .ok [x] :=
        fun c2 hm => h c2 (by simp [hm])
      rcases h c (by simp) with hc | ⟨xx, hc⟩
      · simp only [filterCallsGo, hc]
        rw [ih (i + 1) true hrest]
        simp [List.enumFrom, List.filter, isZeroDiv, hc]
      · simp only [filterCallsGo, hc, List.length_cons, List.length_nil]
        rw [if_true]
        rw [ih (i + 1) fl hrest]
        simp [List.enumFrom, List.filter, isZeroDiv, hc]
  · intro pre
    induction pre with
    | nil =>
      intro post c i fl er _ hcall hne
      cases er <;> first
        | exact absurd rfl hne
        | simp [filterCallsGo, hcall]
    | cons p pre2 ih =>
      intro post c i fl er h hcall hne
      have hpre2 : ∀ c2 ∈ pre2, evalCall c2 = .error .zeroDivision ∨ ∃ x, evalCall c2 = .ok [x] :=
        fun c2 hm => h c2 (by simp [hm])
      rcases h p (by simp) with hp | ⟨xx, hp⟩
      · simp only [List.cons_append, filterCallsGo, hp]
        exact ih post c (i + 1) true er hpre2 hcall hne
      · simp only [List.cons_append, filterCallsGo, hp, List.length_cons, List.length_nil]
        rw [if_true]
        simp only [List.append_eq] at ih ⊢
        rw [ih post c (i + 1) fl er hpre2 hcall hne]

/-- Witness for C5: dropping exactly the index-zero-faulting call while
keeping indices, and propagating a type fault. -/
theorem claimC5_perturbation_filter_witness :
    filterCallsGo evalCallDemo 0 false [0, 1, 2] = .ok ([0, 2], [0, 2], true) ∧
    filterCallsGo evalCallDemo 0 false [0, 1, 3, 2] = .error .typeError := by
  have hok : ∀ c ∈ ([0, 1, 2] : List Nat),
      evalCallDemo c = .error .zeroDivision ∨ ∃ x, evalCallDemo c = .ok [x] := by
    intro c hc
    simp only [List.mem_cons, List.not_mem_nil, or_false] at hc
    rcases hc with rfl | rfl | rfl
    · exact Or.inr ⟨5, rfl⟩
    · exact Or.inl rfl
    · exact Or.inr ⟨7, rfl⟩
  have hpre : ∀ c ∈ ([0, 1] : List Nat),
      evalCallDemo c = .error .zeroDivision ∨ ∃ x, evalCallDemo c = .ok [x] := by
    intro c hc
    simp only [List.mem_cons, List.not_mem_nil, or_false] at hc
    rcases hc with rfl | rfl
    · exact Or.inr ⟨5, rfl⟩
    · exact Or.inl rfl
  constructor
  · have h := (claimC5_perturbation_filter Nat Nat evalCallDemo).1 [0, 1, 2] 0 false hok
    exact h.trans (by simp [List.enumFrom, evalCallDemo, isZeroDiv, List.filter])
  · exact (claimC5_perturbation_filter Nat Nat evalCallDemo).2 [0, 1] [2] 3 0 false
      .typeError hpre rfl (by decide)

/-- A successful scan returns a position within the scanned text. -/
theorem scanFrom_lt : ∀ (t : List Char) (st q : Bool) (d : Int) (i e : Nat),
    scanFrom st q d i t = some e → i ≤ e ∧ e < i + t.length := by
  intro t
  induction t with
  | nil => intro st q d i e h; simp [scanFrom] at h
  | cons c rest ih =>
    intro st q d i e h
    simp only [scanFrom] at h
    repeat' split at h
    all_goals first
      | (have hq := ih _ _ _ _ _ h
         simp only [List.length_cons]
         omega)
      | (injection h with h2
         simp only [List.length_cons]
         omega)

/-- Splicing a span's own slice back over the span is the identity. -/
theorem take_slice_drop (s : List Char) (a b : Nat) (hab : a ≤ b) (hb : b ≤ s.length) :
    s.take a ++ (seqSlice s a b ++ s.drop b) = s := by
  have hdrop : s.drop b = (s.drop a).drop (b - a) := by
    rw [List.drop_drop]
    congr 1
    omega
  rw [seqSlice, hdrop, List.take_append_drop, List.take_append_drop]

/-- An in-range slice has the span's length. -/
theorem seqSlice_length (s : List Char) (a b : Nat) (hab : a ≤ b) (hb : b ≤ s.length) :
    (seqSlice s a b).length = b - a := by
  simp [seqSlice]
  omega

/-- Substituting each span's own bracketed text leaves the program
unchanged, for any span list whose entries are in range and carry their own
slice. -/
theorem sub_calls_id (s : List Char) : ∀ (sps : List (Nat × Nat)) (cs : List (List Char)),
    List.Forall₂ (fun sp c => sp.1 < sp.2 ∧ sp.2 ≤ s.length ∧ c = seqSlice s sp.1 sp.2) sps cs →
    sub_calls s 0 sps (cs.map wrapBrackets) = .ok s := by
  intro sps cs h
  induction h with
  | nil => rfl
  | @cons sp c sps2 cs2 hg htail ih =>
    obtain ⟨h1, h2, h3⟩ := hg
    obtain ⟨a, b⟩ := sp
    simp only at h1 h2 h3
    simp only [List.map_cons, wrapBrackets, sub_calls]
    have hhead : (('[' :: c) ++ [']']).head? = some '[' := rfl
    have hlast : ('[' :: (c ++ [']'])).getLast? = some ']' := by
      rw [← List.cons_append, List.getLast?_concat]
    rw [if_pos ⟨hhead, hlast⟩]
    have hv2 : ((('[' :: c) ++ [']']).drop 1).dropLast = c := by
      simp [List.dropLast_concat]
    have hclampa : pyClamp s.length ((a : Int) + 0) = a := by
      simp only [pyClamp, add_zero, Int.toNat_natCast]
      rw [if_neg (by omega)]
      omega
    have hclampb : pyClamp s.length ((b : Int) + 0) = b := by
      simp only [pyClamp, add_zero, Int.toNat_natCast]
      rw [if_neg (by omega)]
      omega
    have hsplice : s.take (pyClamp s.length ((a : Int) + 0)) ++
        ((('[' :: c) ++ [']']).drop 1).dropLast ++
        s.drop (pyClamp s.length ((b : Int) + 0)) = s := by
      rw [hv2, hclampa, hclampb, h3, List.append_assoc]
      exact take_slice_drop s a b (le_of_lt h1) h2
    have hdelta : (0 : Int) + (((('[' :: c) ++ [']']).drop 1).dropLast.length : Int) -
        ((b : Int) - (a : Int)) = 0 := by
      rw [hv2, h3, seqSlice_length s a b (le_of_lt h1) h2]
      omega
    rw [hsplice, hdelta]
    exact ih

/-- Every span produced by the extraction loop is in range and paired with
its own slice of the text. -/
theorem extractGo_good (s : List Char) : ∀ (occs : List Nat) (sps : List (Nat × Nat))
    (cs : List (List Char)),
    (∀ idx ∈ occs, idx < s.length) →
    extractGo s occs = .ok (sps, cs) →
    List.Forall₂ (fun sp c => sp.1 < sp.2 ∧ sp.2 ≤ s.length ∧ c = seqSlice s sp.1 sp.2) sps cs := by
  intro occs
  induction occs with
  | nil =>
    intro sps cs _ h
    simp only [extractGo] at h
    injection h with h
    injection h with h1 h2
    subst h1; subst h2
    exact List.Forall₂.nil
  | cons idx rest ih =>
    intro sps cs hin h
    simp only [extractGo] at h
    match hscan : scanFrom false false 0 0 (s.drop idx) with
    | none => rw [hscan] at h; exact absurd h (by simp)
    | some e =>
      rw [hscan] at h
      match hrec : extractGo s rest with
      | .error f => rw [hrec] at h; exact absurd h (by simp)
      | .ok (sps2, cs2) =>
        rw [hrec] at h
        injection h with h
        injection h with h1 h2
        subst h1; subst h2
        have hidx : idx < s.length := hin idx (by simp)
        have hb := scanFrom_lt _ _ _ _ _ _ hscan
        have hlen : idx + e + 1 ≤ s.length := by
          have : (s.drop idx).length = s.length - idx := by simp
          omega
        exact List.Forall₂.cons ⟨by omega, hlen, rfl⟩
          (ih sps2 cs2 (fun j hj => hin j (by simp [hj])) hrec)

/-- Claim C8: on any text where `extract_calls` succeeds, substituting each
extracted span's own text wrapped in square brackets reproduces the
original text exactly. -/
theorem claimC8_roundtrip (s : List Char) (sps : List (Nat × Nat)) (cs : List (List Char))
    (h : extract_calls s = .ok (sps, cs)) :
    sub_calls s 0 sps (cs.map wrapBrackets) = .ok s := by
  simp only [extract_calls] at h
  split at h
  · exact absurd h (by simp)
  · refine sub_calls_id s sps cs (extractGo_good s (findOccs s) sps cs ?_ h)
    intro idx hidx
    simp only [findOccs, List.mem_filter, List.mem_range] at hidx
    exact hidx.1

/-- Witness for C8 on `x = candidate(1)`. -/
theorem claimC8_roundtrip_witness :
    extract_calls (("x = candidate(1)").toList) =
      .ok ([(4, 16)], [("candidate(1)").toList]) ∧
    sub_calls (("x = candidate(1)").toList) 0 [(4, 16)]
      ([("candidate(1)").toList].map wrapBrackets) = .ok (("x = candidate(1)").toList) := by
  have h : extract_calls (("x = candidate(1)").toList) =
      .ok ([(4, 16)], [("candidate(1)").toList]) := by rfl
  exact ⟨h, claimC8_roundtrip _ _ _ h⟩
